import Mathlib

/-!
Shallow embedding of the caption-renderer core of the txtpng repository
(file `src/app/page.tsx`, the `Home` component: `processFile`,
`generateImage`, the settings `onChange` handlers) together with proofs
about it.

Strings are modelled as `List Char`.  Every character occurring in the
program's literals and in the inputs of interest lies in the Basic
Multilingual Plane, where one JavaScript UTF-16 code unit is one `Char`,
so `List.length` coincides with JavaScript's `String.length` and
`split('')` is the identity embedding of a string into its code units.
-/

namespace TxtPng

/-- Whitespace predicate matching JavaScript's `String.prototype.trim`
(ECMA-262 WhiteSpace plus LineTerminator code points). -/
def isWS (c : Char) : Bool :=
  c == ' ' || c == '\t' || c == '\n' || c == '\r' ||
  c.toNat == 0x0b || c.toNat == 0x0c || c.toNat == 0xa0 ||
  c.toNat == 0x1680 || (0x2000 ≤ c.toNat && c.toNat ≤ 0x200a) ||
  c.toNat == 0x2028 || c.toNat == 0x2029 || c.toNat == 0x202f ||
  c.toNat == 0x205f || c.toNat == 0x3000 || c.toNat == 0xfeff

/-- JavaScript `s.trim()`: strip whitespace from both ends. -/
def trim (l : List Char) : List Char :=
  ((l.dropWhile isWS).reverse.dropWhile isWS).reverse

/-- Core of `text.split(/[-]{20,}/)` from `processFile`: scan the text
left to right; `acc` holds the current chunk reversed and `pend` the
length of the run of consecutive hyphens read since the last non-hyphen
character. When a maximal hyphen run ends (a non-hyphen character or the
end of the text is reached), a run of 20 or more hyphens is a delimiter
(the regex quantifier is greedy, so the whole run is consumed and
discarded) and a shorter run is ordinary chunk content. -/
def splitAux (acc : List Char) (pend : Nat) : List Char → List (List Char)
  | [] =>
    if 20 ≤ pend then [acc.reverse, []]
    else [(List.replicate pend '-' ++ acc).reverse]
  | c :: rest =>
    if c = '-' then splitAux acc (pend + 1) rest
    else if 20 ≤ pend then acc.reverse :: splitAux [c] 0 rest
    else splitAux (c :: (List.replicate pend '-' ++ acc)) 0 rest

/-- `text.split(/[-]{20,}/).filter(s => s.trim())` from `processFile`
(line 97): split on delimiter runs, keep the chunks whose trimmed
content is non-empty. -/
def sections (text : List Char) : List (List Char) :=
  (splitAux [] 0 text).filter (fun s => !(trim s).isEmpty)

/-- One step of the character loop of the wrapper in `generateImage`
(lines 136-144): state is `(currentLine, wrappedLines)`. -/
def wrapStep (st : List Char × List (List Char)) (c : Char) :
    List Char × List (List Char) :=
  let testLine := st.1 ++ [c]
  if 25 < testLine.length then ([c], st.2 ++ [st.1]) else (testLine, st.2)

/-- The wrapper's treatment of one logical line (`generateImage` lines
134-145): fold the character loop, then push any non-empty remainder. -/
def wrapLine (line : List Char) : List (List Char) :=
  let st := line.foldl wrapStep ([], [])
  st.2 ++ (if st.1.isEmpty then [] else [st.1])

/-- `generateImage` lines 130-147: split the section on newlines, drop
blank logical lines (the outer `filter` and the redundant inner
`if (line.trim())` guard), and wrap each remaining line. -/
def wrapSection (sec : List Char) : List (List Char) :=
  ((sec.splitOn '\n').filter (fun l => !(trim l).isEmpty)).flatMap
    (fun line => if (trim line).isEmpty then [] else wrapLine line)

/-- Final flush of the wrapper state: push the non-empty remainder. -/
def wrapFinish (st : List Char × List (List Char)) : List (List Char) :=
  st.2 ++ (if st.1.isEmpty then [] else [st.1])

/-- Modelled from the spec's wording of the wrap rule: greedy character
accumulation — append characters one at a time; when appending would make
the accumulator exceed 25 characters, emit the accumulator as it was and
restart from that character; emit any non-empty remainder at end of
line. -/
def greedyAccum (acc : List Char) : List Char → List (List Char)
  | [] => if acc.isEmpty then [] else [acc]
  | c :: rest =>
    if 25 < (acc ++ [c]).length then acc :: greedyAccum [c] rest
    else greedyAccum (acc ++ [c]) rest

/-- The fixed verse-header substring tested by `line.includes('창세기 1장')`. -/
def header : List Char := ("창세기 1장").data

/-- The substring removed by `line.replace('창세기 1장 ', '')` (note the
trailing space, absent from the `includes` test). -/
def headerSp : List Char := ("창세기 1장 ").data

/-- The single-character verse suffix `'절'`. -/
def jeol : List Char := ("절").data

/-- JavaScript `s.includes(pat)`: `pat` occurs as a contiguous substring. -/
def containsSub (pat : List Char) : List Char → Bool
  | [] => pat.isEmpty
  | c :: rest => pat.isPrefixOf (c :: rest) || containsSub pat rest

/-- JavaScript `s.replace(pat, '')` with a plain-string pattern: delete
the first occurrence of `pat`, if any. -/
def removeFirst (pat : List Char) : List Char → List Char
  | [] => []
  | c :: rest =>
    if pat.isPrefixOf (c :: rest) then (c :: rest).drop pat.length
    else c :: removeFirst pat rest

/-- The title test of `generateImage` line 153:
`line.includes('창세기 1장') && line.includes('절')`. -/
def isTitleLine (l : List Char) : Bool :=
  containsSub header l && containsSub jeol l

/-- The title extraction of `generateImage` line 154:
`line.replace('창세기 1장 ', '').replace('절', '').trim()`. -/
def stripTitle (l : List Char) : List Char :=
  trim (removeFirst jeol (removeFirst headerSp l))

/-- One step of the classifier loop of `generateImage` (lines 152-158):
state is `(title, contentLines)`. -/
def classifyStep (st : List Char × List (List Char)) (line : List Char) :
    List Char × List (List Char) :=
  if isTitleLine line then (stripTitle line, st.2)
  else if (trim line).isEmpty then st
  else (st.1, st.2 ++ [trim line])

/-- The classifier of `generateImage` lines 149-158: fold over the
wrapped lines starting from an empty title and no content lines. -/
def classify (lines : List (List Char)) : List Char × List (List Char) :=
  lines.foldl classifyStep ([], [])

/-- Last title over `lines` starting from a previous title value `t`
(the classifier overwrites the title on every matching line). -/
def titleFrom (t : List Char) (lines : List (List Char)) : List Char :=
  match (lines.filter isTitleLine).getLast? with
  | none => t
  | some l => stripTitle l

/-- Modelled from the spec: the Title is the stripped form of the last
wrapped line matching the verse-header pattern, or empty if none. -/
def titleSpec (lines : List (List Char)) : List Char :=
  titleFrom [] lines

/-- Modelled from the spec: the ContentLines are the trimmed forms of
the non-title wrapped lines that are non-blank after trimming, in
original order. -/
def contentSpec (lines : List (List Char)) : List (List Char) :=
  (lines.filter (fun l => !isTitleLine l && !(trim l).isEmpty)).map trim

/-- Stroke/fill colours used by `generateImage`. -/
inductive PaintColor
  | white
  | black
deriving DecidableEq

/-- Abstract trace of one 2D-context drawing call issued by
`generateImage`. Coordinates and font sizes are `Int` because the
settings fields come from `parseInt` and may be negative. -/
inductive DrawOp
  | clearRect (x y w h : Nat)
  | strokeTextOp (text : List Char) (fontPx : Int) (color : PaintColor)
      (lineWidth : Nat) (x y : Int)
  | fillTextOp (text : List Char) (fontPx : Int) (color : PaintColor)
      (x y : Int)
deriving DecidableEq

/-- The four user-configurable settings of the renderer (the `settings`
state of the `Home` component). -/
structure RenderSettings where
  contentFontSize : Int
  numberFontSize : Int
  numberContentSpacing : Int
  lineSpacing : Int
deriving DecidableEq

/-- The initial `useState` settings values. -/
def defaultSettings : RenderSettings := ⟨62, 41, 55, 70⟩

/-- The trace of drawing one text line in `generateImage`: a white
stroke of line width 6, then five black fills at the same position. -/
def drawGroup (text : List Char) (fontPx : Int) (x y : Int) : List DrawOp :=
  DrawOp.strokeTextOp text fontPx PaintColor.white 6 x y ::
    List.replicate 5 (DrawOp.fillTextOp text fontPx PaintColor.black x y)

/-- One step of the content-drawing loop of `generateImage` (lines
180-196): state is `(yPos, ops so far)`; `yPos` advances by
`lineSpacing` after each line. -/
def contentFold (s : RenderSettings) (st : Int × List DrawOp)
    (line : List Char) : Int × List DrawOp :=
  (st.1 + s.lineSpacing, st.2 ++ drawGroup line s.contentFontSize 190 st.1)

/-- The rendered canvas of one section: fixed dimensions, the
`textBaseline` value, and the ordered trace of drawing calls. -/
structure CanvasImage where
  width : Nat
  height : Nat
  baseline : List Char
  ops : List DrawOp
deriving DecidableEq

/-- `generateImage` (lines 116-198): a fresh 1920x1080 canvas is
cleared, `textBaseline` is set to `top`, the section is wrapped and
classified, the title (if non-empty) is drawn at (190, 200) at
`numberFontSize`, and the content lines are drawn from
`200 + numberContentSpacing` downwards at `contentFontSize`. The
`index` argument is accepted but never used by the drawing code. -/
def generateImage (sec : List Char) (index : Nat) (s : RenderSettings) :
    CanvasImage :=
  let wrapped := wrapSection sec
  let tc := classify wrapped
  let titleOps :=
    if tc.1.isEmpty then [] else drawGroup tc.1 s.numberFontSize 190 200
  let contentOps :=
    (tc.2.foldl (contentFold s) (200 + s.numberContentSpacing, [])).2
  { width := 1920, height := 1080, baseline := ("top").data,
    ops := DrawOp.clearRect 0 0 1920 1080 :: (titleOps ++ contentOps) }

/-- Modelled from the spec: content lines drawn in order, the first at
y-offset `y`, each subsequent one `lineSpacing` lower. -/
def contentOpsSpec (s : RenderSettings) (y : Int) :
    List (List Char) → List DrawOp
  | [] => []
  | l :: ls =>
    drawGroup l s.contentFontSize 190 y ++
      contentOpsSpec s (y + s.lineSpacing) ls

/-- The alert text shown by the `catch` branch of `processFile`. -/
def alertText : List Char := ("파일 처리 중 오류가 발생했습니다.").data

/-- The section loop of `processFile` (lines 101-105) with a fallible
encoding backend `enc` standing for the canvas/`toDataURL` machinery:
sections are rendered sequentially with 1-based indices, and the first
failure aborts the whole loop. -/
def renderAll {E β : Type} (enc : CanvasImage → Except E β)
    (s : RenderSettings) : Nat → List (List Char) → Except E (List β)
  | _, [] => Except.ok []
  | i, sec :: rest =>
    match enc (generateImage sec (i + 1) s) with
    | Except.error e => Except.error e
    | Except.ok img =>
      match renderAll enc s (i + 1) rest with
      | Except.error e => Except.error e
      | Except.ok more => Except.ok (img :: more)

/-- The observable outcome of `processFile`: the `images` state and the
alert message, if any. -/
structure ProcessResult (β : Type) where
  images : List β
  alertMsg : Option (List Char)
deriving DecidableEq

/-- `processFile` (lines 89-114): split the text into sections, render
each in order; on success the images are published, on any failure the
`catch` branch leaves `images` empty (it was reset to `[]` at the start)
and shows the alert. -/
def processFile {E β : Type} (enc : CanvasImage → Except E β)
    (text : List Char) (s : RenderSettings) : ProcessResult β :=
  match renderAll enc s 0 (sections text) with
  | Except.ok imgs => { images := imgs, alertMsg := none }
  | Except.error _ => { images := [], alertMsg := some alertText }

/-- The success-path render pipeline: the canvases `processFile` encodes,
obtained by running it with an infallible identity backend. -/
def render (text : List Char) (s : RenderSettings) : List CanvasImage :=
  (processFile (fun c => (Except.ok c : Except Empty CanvasImage)) text s).images

/-- Decimal digit test. -/
def isDigit10 (c : Char) : Bool := '0' ≤ c && c ≤ '9'

/-- Hexadecimal digit test. -/
def isDigit16 (c : Char) : Bool :=
  isDigit10 c || ('a' ≤ c && c ≤ 'f') || ('A' ≤ c && c ≤ 'F')

/-- Numeric value of a digit character (0 on non-digits). -/
def digitVal (c : Char) : Nat :=
  if isDigit10 c then c.toNat - ('0').toNat
  else if 'a' ≤ c && c ≤ 'f' then c.toNat - ('a').toNat + 10
  else if 'A' ≤ c && c ≤ 'F' then c.toNat - ('A').toNat + 10
  else 0

/-- Value of a digit string in the given radix, accumulator style. -/
def digitsVal (radix : Nat) : Nat → List Char → Nat
  | acc, [] => acc
  | acc, c :: rest => digitsVal radix (acc * radix + digitVal c) rest

/-- JavaScript `parseInt(s)` with the radix argument omitted: skip
leading whitespace, read an optional sign, detect an optional `0x`/`0X`
prefix (radix 16, else 10), then parse the longest prefix of digits of
that radix; `none` models `NaN` (no digits at all). Trailing non-digit
characters are ignored. -/
def parseIntJS (s : List Char) : Option Int :=
  let t0 := s.dropWhile isWS
  let sgn : Int := match t0 with | '-' :: _ => -1 | _ => 1
  let t1 : List Char :=
    match t0 with
    | '-' :: r => r
    | '+' :: r => r
    | _ => t0
  let hex : Bool :=
    match t1 with
    | '0' :: c :: _ => c == 'x' || c == 'X'
    | _ => false
  let t2 := if hex then t1.drop 2 else t1
  let dp := if hex then isDigit16 else isDigit10
  let ds := t2.takeWhile dp
  if ds.isEmpty then none
  else some (sgn * (digitsVal (if hex then 16 else 10) 0 ds : Int))

/-- JavaScript `x || d` applied to a `parseInt` result: `NaN` and `0`
(and `-0`) are falsy and yield the default. -/
def jsOr (v : Option Int) (d : Int) : Int :=
  match v with
  | none => d
  | some n => if n = 0 then d else n

/-- The `onChange` handler of the content-font-size input (line 297):
`{ ...settings, contentFontSize: parseInt(e.target.value) || 62 }`. -/
def handleContentFontSize (s : RenderSettings) (v : List Char) :
    RenderSettings :=
  ⟨jsOr (parseIntJS v) 62, s.numberFontSize, s.numberContentSpacing,
    s.lineSpacing⟩

/-- The `onChange` handler of the number-font-size input (line 308). -/
def handleNumberFontSize (s : RenderSettings) (v : List Char) :
    RenderSettings :=
  ⟨s.contentFontSize, jsOr (parseIntJS v) 41, s.numberContentSpacing,
    s.lineSpacing⟩

/-- The `onChange` handler of the number-content-spacing input (line 319). -/
def handleNumberContentSpacing (s : RenderSettings) (v : List Char) :
    RenderSettings :=
  ⟨s.contentFontSize, s.numberFontSize, jsOr (parseIntJS v) 55,
    s.lineSpacing⟩

/-- The `onChange` handler of the line-spacing input (line 330). -/
def handleLineSpacing (s : RenderSettings) (v : List Char) :
    RenderSettings :=
  ⟨s.contentFontSize, s.numberFontSize, s.numberContentSpacing,
    jsOr (parseIntJS v) 70⟩

lemma flatMap_eq_of_mem {α β : Type} {f g : α → List β} :
    ∀ l : List α, (∀ x ∈ l, f x = g x) → l.flatMap f = l.flatMap g := by
  intro l h
  induction l with
  | nil => rfl
  | cons a as ih =>
    simp only [List.flatMap_cons]
    rw [h a (by simp), ih (fun x hx => h x (by simp [hx]))]

lemma wrapFinish_foldl (rest : List Char) : ∀ acc out,
    wrapFinish (List.foldl wrapStep (acc, out) rest) =
      out ++ greedyAccum acc rest := by
  induction rest with
  | nil => intro acc out; simp [wrapFinish, greedyAccum]
  | cons c cs ih =>
    intro acc out
    rw [List.foldl_cons]
    by_cases h : 25 < (acc ++ [c]).length
    · rw [show wrapStep (acc, out) c = ([c], out ++ [acc]) by
        simp only [wrapStep]; rw [if_pos h]]
      rw [ih, show greedyAccum acc (c :: cs) = acc :: greedyAccum [c] cs by
        simp only [greedyAccum]; rw [if_pos h]]
      simp
    · rw [show wrapStep (acc, out) c = (acc ++ [c], out) by
        simp only [wrapStep]; rw [if_neg h]]
      rw [ih, show greedyAccum acc (c :: cs) = greedyAccum (acc ++ [c]) cs by
        simp only [greedyAccum]; rw [if_neg h]]

lemma wrapLine_eq_greedy (line : List Char) :
    wrapLine line = greedyAccum [] line := by
  have h := wrapFinish_foldl line [] []
  simpa [wrapLine, wrapFinish] using h

lemma greedyAccum_length (rest : List Char) : ∀ acc, acc.length ≤ 25 →
    ∀ l ∈ greedyAccum acc rest, l.length ≤ 25 := by
  induction rest with
  | nil =>
    intro acc hacc l hl
    by_cases h : acc.isEmpty <;> simp [greedyAccum, h] at hl
    subst hl; exact hacc
  | cons c cs ih =>
    intro acc hacc l hl
    by_cases h : 25 < (acc ++ [c]).length
    · simp only [greedyAccum, if_pos h, List.mem_cons] at hl
      rcases hl with rfl | hl
      · exact hacc
      · exact ih [c] (by simp) l hl
    · simp only [greedyAccum, if_neg h] at hl
      exact ih (acc ++ [c]) (Nat.not_lt.mp h) l hl

lemma greedyAccum_flatten (rest : List Char) : ∀ acc,
    (greedyAccum acc rest).flatten = acc ++ rest := by
  induction rest with
  | nil => intro acc; by_cases h : acc.isEmpty <;>
      simp_all [greedyAccum, List.isEmpty_iff]
  | cons c cs ih =>
    intro acc
    by_cases h : 25 < (acc ++ [c]).length
    · simp only [greedyAccum]; rw [if_pos h]; simp [ih]
    · simp only [greedyAccum]; rw [if_neg h]; simp [ih]

/-- C1: each logical (newline-delimited, non-blank) line of a section is
wrapped by greedy character accumulation — characters are appended one at
a time, the accumulator is emitted just before it would exceed 25
characters and restarts from the offending character, and a non-empty
remainder is emitted at end of line; the section's wrapped lines are the
concatenation of the per-line results in order. -/
theorem wrap_is_greedy_accumulation :
    (∀ line : List Char, wrapLine line = greedyAccum [] line) ∧
    (∀ sec : List Char,
      wrapSection sec =
        ((sec.splitOn '\n').filter (fun l => !(trim l).isEmpty)).flatMap
          (greedyAccum [])) := by
  refine ⟨wrapLine_eq_greedy, fun sec => ?_⟩
  unfold wrapSection
  apply flatMap_eq_of_mem
  intro x hx
  rw [List.mem_filter] at hx
  have hne : (trim x).isEmpty = false := by
    cases hb : (trim x).isEmpty
    · rfl
    · rw [hb] at hx; simp at hx
  rw [if_neg (by simp [hne]), wrapLine_eq_greedy]

/-- C2: every wrapped line the wrapper produces from any section has
length at most 25 characters (code units). -/
theorem wrapped_line_length_le (sec l : List Char)
    (h : l ∈ wrapSection sec) : l.length ≤ 25 := by
  unfold wrapSection at h
  rw [List.mem_flatMap] at h
  obtain ⟨line, _, hl⟩ := h
  by_cases hb : (trim line).isEmpty <;> simp only [hb] at hl
  · simp at hl
  · rw [if_neg (by simp), wrapLine_eq_greedy] at hl
    exact greedyAccum_length line [] (by simp) l hl

/-- Witness for C2 at a concrete section. -/
theorem wrapped_line_length_le_witness :
    ("안녕하세요").data ∈ wrapSection (("창세기 1장 3절\n안녕하세요").data) ∧
    (("안녕하세요").data).length ≤ 25 :=
  ⟨by decide,
    wrapped_line_length_le (("창세기 1장 3절\n안녕하세요").data)
      (("안녕하세요").data) (by decide)⟩

/-- C9: for every logical line whose trimmed content is non-empty,
concatenating its wrapped lines in order reconstructs the line exactly —
wrapping drops, duplicates and reorders no characters. -/
theorem wrap_concat_id (line : List Char) (h : trim line ≠ []) :
    (wrapLine line).flatten = line := by
  rw [wrapLine_eq_greedy]
  simpa using greedyAccum_flatten line []

/-- Witness for C9 at a concrete line. -/
theorem wrap_concat_id_witness :
    trim (("안녕하세요").data) ≠ [] ∧
    (wrapLine (("안녕하세요").data)).flatten = ("안녕하세요").data :=
  ⟨by decide, wrap_concat_id (("안녕하세요").data) (by decide)⟩

lemma classify_fold (lines : List (List Char)) : ∀ t cs,
    List.foldl classifyStep (t, cs) lines =
      (titleFrom t lines, cs ++ contentSpec lines) := by
  induction lines with
  | nil => intro t cs; simp [titleFrom, contentSpec]
  | cons l ls ih =>
    intro t cs
    rw [List.foldl_cons]
    cases h1 : isTitleLine l
    · cases h2 : (trim l).isEmpty
      · rw [show classifyStep (t, cs) l = (t, cs ++ [trim l]) by
          simp [classifyStep, h1, h2]]
        rw [ih, Prod.mk.injEq]
        refine ⟨?_, ?_⟩
        · simp [titleFrom, List.filter_cons, h1]
        · simp [contentSpec, List.filter_cons, h1, h2]
      · rw [show classifyStep (t, cs) l = (t, cs) by
          simp [classifyStep, h1, h2]]
        rw [ih, Prod.mk.injEq]
        refine ⟨?_, ?_⟩
        · simp [titleFrom, List.filter_cons, h1]
        · simp [contentSpec, List.filter_cons, h1, h2]
    · rw [show classifyStep (t, cs) l = (stripTitle l, cs) by
        simp [classifyStep, h1]]
      rw [ih, Prod.mk.injEq]
      refine ⟨?_, ?_⟩
      · cases hx : (ls.filter isTitleLine).getLast? <;>
          simp [titleFrom, List.filter_cons, h1, List.getLast?_cons, hx]
      · simp [contentSpec, List.filter_cons, h1]

/-- C5: the classifier marks a wrapped line as the Title exactly when it
contains both the Genesis-chapter-1 header substring and the verse
suffix character; the Title is the stripped, trimmed form of the last
such line, and every other wrapped line that is non-blank after trimming
becomes a ContentLine (trimmed) in original order. Concretely, section
text `창세기 1장 3절\n안녕하세요` yields Title `3` and ContentLines
`[안녕하세요]`. -/
theorem classifier_spec :
    (∀ lines : List (List Char),
      classify lines = (titleSpec lines, contentSpec lines)) ∧
    classify (wrapSection (("창세기 1장 3절\n안녕하세요").data)) =
      (("3").data, [("안녕하세요").data]) := by
  constructor
  · intro lines
    unfold classify titleSpec
    rw [classify_fold]
    simp
  · decide

lemma contentFold_eq (s : RenderSettings) (lines : List (List Char)) :
    ∀ (y : Int) (acc : List DrawOp),
      (lines.foldl (contentFold s) (y, acc)).2 =
        acc ++ contentOpsSpec s y lines := by
  induction lines with
  | nil => intro y acc; simp [contentOpsSpec]
  | cons l ls ih =>
    intro y acc
    rw [List.foldl_cons]
    rw [show contentFold s (y, acc) l =
      (y + s.lineSpacing, acc ++ drawGroup l s.contentFontSize 190 y) from rfl]
    rw [ih]
    simp [contentOpsSpec]

/-- C6: for every section, the painter's trace on a fresh 1920x1080
transparent canvas with top text baseline is: the full-canvas clear,
then — for the Title, if present — one 6px-wide white stroke followed by
five black fills at the identical position (190, 200) at
`numberFontSize`, then for the i-th ContentLine the same
stroke-then-five-fills group at x 190 and y
`200 + numberContentSpacing + i * lineSpacing`, at `contentFontSize`. -/
theorem painter_draw_sequence :
    (∀ (text : List Char) (fontPx x y : Int),
      drawGroup text fontPx x y =
        DrawOp.strokeTextOp text fontPx PaintColor.white 6 x y ::
          List.replicate 5
            (DrawOp.fillTextOp text fontPx PaintColor.black x y)) ∧
    (∀ (sec : List Char) (idx : Nat) (s : RenderSettings),
      (generateImage sec idx s).width = 1920 ∧
      (generateImage sec idx s).height = 1080 ∧
      (generateImage sec idx s).baseline = ("top").data ∧
      (generateImage sec idx s).ops =
        DrawOp.clearRect 0 0 1920 1080 ::
          ((if (classify (wrapSection sec)).1.isEmpty then []
            else drawGroup (classify (wrapSection sec)).1
              s.numberFontSize 190 200) ++
            contentOpsSpec s (200 + s.numberContentSpacing)
              (classify (wrapSection sec)).2)) := by
  refine ⟨fun _ _ _ _ => rfl, fun sec idx s => ⟨rfl, rfl, rfl, ?_⟩⟩
  simp only [generateImage]
  rw [contentFold_eq]
  simp

lemma renderAll_pure (s : RenderSettings) (secs : List (List Char)) :
    ∀ i : Nat,
      renderAll (fun c => (Except.ok c : Except Empty CanvasImage)) s i
          secs =
        Except.ok (secs.map (fun sec => generateImage sec 1 s)) := by
  induction secs with
  | nil => intro i; rfl
  | cons sec rest ih =>
    intro i
    simp only [renderAll, ih (i + 1), List.map_cons]
    rfl

lemma isWS_of_mem_trim {l : List Char} (h : trim l = [])
    {c : Char} (hc : c ∈ l) : isWS c = true := by
  unfold trim at h
  rw [List.reverse_eq_nil_iff, List.dropWhile_eq_nil_iff] at h
  rcases List.mem_append.mp
    (((List.takeWhile_append_dropWhile isWS l).symm ▸ hc :
      c ∈ List.takeWhile isWS l ++ List.dropWhile isWS l)) with h1 | h1
  · exact List.mem_takeWhile_imp h1
  · exact h c (List.mem_reverse.mpr h1)

lemma trim_eq_nil_of_all_ws {l : List Char}
    (h : ∀ c ∈ l, isWS c = true) : trim l = [] := by
  unfold trim
  rw [List.reverse_eq_nil_iff, List.dropWhile_eq_nil_iff]
  intro x hx
  exact h x ((List.dropWhile_sublist isWS).subset (List.mem_reverse.mp hx))

lemma splitAux_no_hyphen (a : List Char) (ha : '-' ∉ a) :
    ∀ (acc : List Char) (t : List Char),
      splitAux acc 0 (a ++ t) = splitAux (a.reverse ++ acc) 0 t := by
  induction a with
  | nil => intro acc t; simp
  | cons c a' ih =>
    intro acc t
    have hc : ¬(c = '-') := fun h => ha (by rw [h]; exact List.mem_cons_self _ _)
    rw [List.cons_append,
      show splitAux acc 0 (c :: (a' ++ t)) =
        splitAux (c :: (List.replicate 0 '-' ++ acc)) 0 (a' ++ t) by
          simp [splitAux, hc]]
    rw [List.replicate_zero, List.nil_append,
      ih (fun h => ha (List.mem_cons_of_mem c h)) (c :: acc) t]
    simp

lemma splitAux_single (b : List Char) (hb : '-' ∉ b) (acc : List Char) :
    splitAux acc 0 b = [acc.reverse ++ b] := by
  have h := splitAux_no_hyphen b hb acc []
  rw [List.append_nil] at h
  rw [h]
  simp [splitAux]

lemma trim_ne_nil_of_sub {a l : List Char} (h : trim a ≠ [])
    (hsub : ∀ c ∈ a, c ∈ l) : trim l ≠ [] := by
  intro hl
  exact h (trim_eq_nil_of_all_ws fun c hc => isWS_of_mem_trim hl (hsub c hc))

lemma splitAux_run (n : Nat) : ∀ (pend : Nat) (acc t : List Char),
    splitAux acc pend (List.replicate n '-' ++ t) =
      splitAux acc (pend + n) t := by
  induction n with
  | zero => intro pend acc t; simp
  | succ m ih =>
    intro pend acc t
    rw [List.replicate_succ, List.cons_append,
      show splitAux acc pend ('-' :: (List.replicate m '-' ++ t)) =
        splitAux acc (pend + 1) (List.replicate m '-' ++ t) by
          simp [splitAux]]
    rw [ih]
    have harith : pend + 1 + m = pend + (m + 1) := by omega
    rw [harith]

/-- C3: the section splitter splits exactly at runs of 20 or more
consecutive hyphens and discards the delimiter run; a run of at most 19
hyphens (in particular exactly 19) does not split and stays inside the
surrounding section's text; chunks that are empty after trimming are
discarded. -/
theorem delimiter_split :
    (∀ (a b : List Char) (n : Nat), '-' ∉ a → '-' ∉ b →
      trim a ≠ [] → trim b ≠ [] →
      (20 ≤ n → sections (a ++ List.replicate n '-' ++ b) = [a, b]) ∧
      (n < 20 →
        sections (a ++ List.replicate n '-' ++ b) =
          [a ++ List.replicate n '-' ++ b])) ∧
    sections (List.replicate 20 '-' ++ (" ").data ++
      List.replicate 20 '-') = [] ∧
    sections (("a").data ++ List.replicate 20 '-') = [("a").data] := by
  refine ⟨?_, by decide, by decide⟩
  intro a b n ha hb hta htb
  have hbne : b ≠ [] := by
    intro h; exact htb (by rw [h]; rfl)
  obtain ⟨c, b', rfl⟩ : ∃ c b', b = c :: b' := by
    cases b with
    | nil => exact absurd rfl hbne
    | cons c b' => exact ⟨c, b', rfl⟩
  have hc : ¬(c = '-') := fun h => hb (by rw [h]; exact List.mem_cons_self _ _)
  have hb' : '-' ∉ b' := fun h => hb (List.mem_cons_of_mem c h)
  have hsplit : splitAux [] 0 (a ++ List.replicate n '-' ++ (c :: b')) =
      splitAux a.reverse n (c :: b') := by
    rw [List.append_assoc, splitAux_no_hyphen a ha [] _, List.append_nil,
      splitAux_run, Nat.zero_add]
  have hfa : (!(trim a).isEmpty) = true := by
    simp [List.isEmpty_eq_false.mpr hta]
  have hfb : (!(trim (c :: b')).isEmpty) = true := by
    simp [List.isEmpty_eq_false.mpr htb]
  constructor
  · intro hn
    have : splitAux a.reverse n (c :: b') =
        a :: splitAux [c] 0 b' := by
      simp [splitAux, hc, hn]
    rw [show sections (a ++ List.replicate n '-' ++ (c :: b')) =
      (splitAux [] 0 (a ++ List.replicate n '-' ++ (c :: b'))).filter
        (fun s => !(trim s).isEmpty) from rfl, hsplit, this,
      splitAux_single b' hb' [c]]
    simp only [List.reverse_cons, List.reverse_nil, List.nil_append,
      List.singleton_append, List.filter_cons, hfa, hfb, if_true]
    rfl
  · intro hn
    have hn' : ¬(20 ≤ n) := by omega
    have : splitAux a.reverse n (c :: b') =
        splitAux (c :: (List.replicate n '-' ++ a.reverse)) 0 b' := by
      simp [splitAux, hc, hn']
    rw [show sections (a ++ List.replicate n '-' ++ (c :: b')) =
      (splitAux [] 0 (a ++ List.replicate n '-' ++ (c :: b'))).filter
        (fun s => !(trim s).isEmpty) from rfl, hsplit, this,
      splitAux_single b' hb' _]
    have hchunk : (c :: (List.replicate n '-' ++ a.reverse)).reverse ++ b' =
        a ++ List.replicate n '-' ++ (c :: b') := by
      simp [List.reverse_cons, List.reverse_append, List.reverse_replicate,
        List.append_assoc]
    rw [hchunk]
    have htchunk : trim (a ++ List.replicate n '-' ++ (c :: b')) ≠ [] :=
      trim_ne_nil_of_sub hta fun x hx => by
        rw [List.append_assoc]; exact List.mem_append_left _ hx
    have htchunk2 : trim (a ++ (List.replicate n '-' ++ (c :: b'))) ≠ [] := by
      rw [← List.append_assoc]; exact htchunk
    simp [List.filter_cons, List.isEmpty_eq_false.mpr htchunk,
      List.isEmpty_eq_false.mpr htchunk2]

/-- Witness for C3's general part at a concrete split. -/
theorem delimiter_split_witness :
    sections (("a").data ++ List.replicate 20 '-' ++ ("b").data) =
      [("a").data, ("b").data] ∧
    sections (("a").data ++ List.replicate 19 '-' ++ ("b").data) =
      [("a").data ++ List.replicate 19 '-' ++ ("b").data] :=
  ⟨(delimiter_split.1 (("a").data) (("b").data) 20 (by decide) (by decide)
      (by decide) (by decide)).1 (by decide),
    (delimiter_split.1 (("a").data) (("b").data) 19 (by decide) (by decide)
      (by decide) (by decide)).2 (by decide)⟩

/-- C4: `render` yields exactly one image per non-blank section, in the
original order of the sections, and empty or whitespace-only input
yields an empty sequence. -/
theorem render_section_count :
    (∀ (text : List Char) (s : RenderSettings),
      render text s =
        (sections text).map (fun sec => generateImage sec 1 s) ∧
      (render text s).length = (sections text).length) ∧
    (∀ (text : List Char) (s : RenderSettings),
      (∀ c ∈ text, isWS c = true) → render text s = []) := by
  have hmain : ∀ (text : List Char) (s : RenderSettings),
      render text s =
        (sections text).map (fun sec => generateImage sec 1 s) := by
    intro text s
    unfold render processFile
    rw [renderAll_pure]
  refine ⟨fun text s => ⟨hmain text s, by rw [hmain]; simp⟩, ?_⟩
  intro text s hws
  rw [hmain]
  have hnh : '-' ∉ text := by
    intro h
    have := hws '-' h
    simp [isWS] at this
  have hone : splitAux [] 0 text = [text] := by
    have h := splitAux_single text hnh []
    simpa using h
  unfold sections
  rw [hone]
  simp [List.filter_cons, trim_eq_nil_of_all_ws hws]

/-- Witness for C4's whitespace-only part at a concrete input. -/
theorem render_section_count_witness :
    render (("  \n ").data) defaultSettings = [] :=
  render_section_count.2 (("  \n ").data) defaultSettings (by decide)

lemma renderAll_error {E β : Type} (enc : CanvasImage → Except E β)
    (s : RenderSettings) (secs : List (List Char)) :
    ∀ i : Nat,
      (∃ sec ∈ secs, ∀ v : β, enc (generateImage sec 1 s) ≠ Except.ok v) →
      ∃ e : E, renderAll enc s i secs = Except.error e := by
  induction secs with
  | nil =>
    intro i h
    obtain ⟨sec, hmem, _⟩ := h
    cases hmem
  | cons sec rest ih =>
    intro i h
    obtain ⟨x, hx, hfail⟩ := h
    cases henc : enc (generateImage sec (i + 1) s) with
    | error e => exact ⟨e, by simp [renderAll, henc]⟩
    | ok v =>
      rcases List.mem_cons.mp hx with rfl | hxr
      · exact absurd henc (hfail v)
      · obtain ⟨e, he⟩ := ih (i + 1) ⟨x, hxr, hfail⟩
        exact ⟨e, by simp [renderAll, henc, he]⟩

/-- C7: if any one section's rendering fails, the whole batch aborts:
`processFile` surfaces the user-facing processing alert and returns no
images at all — results from sections rendered before the failure are
discarded. -/
theorem batch_all_or_nothing {E β : Type} (enc : CanvasImage → Except E β)
    (text : List Char) (s : RenderSettings)
    (h : ∃ sec ∈ sections text,
      ∀ v : β, enc (generateImage sec 1 s) ≠ Except.ok v) :
    processFile enc text s = ⟨[], some alertText⟩ := by
  obtain ⟨e, he⟩ := renderAll_error enc s (sections text) 0 h
  unfold processFile
  rw [he]

/-- Witness for C7 with a backend that always fails. -/
theorem batch_all_or_nothing_witness :
    processFile (fun _ => (Except.error () : Except Unit (List Char)))
      (("a").data) defaultSettings = ⟨[], some alertText⟩ :=
  batch_all_or_nothing _ _ _
    ⟨("a").data, by decide, fun v hv => by cases hv⟩

/-- C8: a non-numeric (`parseInt` yields `NaN`) or empty input value for
any of the four settings fields is silently replaced by that field's
default (62, 41, 55, 70 respectively); in particular a non-numeric
content-font-size input falls back to 62. -/
theorem settings_fallback :
    (∀ (s : RenderSettings) (v : List Char), parseIntJS v = none →
      (handleContentFontSize s v).contentFontSize = 62 ∧
      (handleNumberFontSize s v).numberFontSize = 41 ∧
      (handleNumberContentSpacing s v).numberContentSpacing = 55 ∧
      (handleLineSpacing s v).lineSpacing = 70) ∧
    (handleContentFontSize defaultSettings
      (("abc").data)).contentFontSize = 62 := by
  constructor
  · intro s v h
    simp [handleContentFontSize, handleNumberFontSize,
      handleNumberContentSpacing, handleLineSpacing, jsOr, h]
  · decide

/-- Witness for C8 at the empty input. -/
theorem settings_fallback_witness :
    parseIntJS [] = none ∧
    (handleContentFontSize defaultSettings []).contentFontSize = 62 :=
  ⟨rfl, (settings_fallback.1 defaultSettings [] rfl).1⟩

/-- C10: every settings field is updated via `parseInt(value) || default`,
so an input parsing to 0 or NaN is replaced by the field's default and a
field can never be set to 0, while any nonzero parsed integer — negative
values included — is accepted unchanged. -/
theorem settings_zero_and_negative :
    (∀ (s : RenderSettings) (v : List Char),
      parseIntJS v = none ∨ parseIntJS v = some 0 →
      (handleContentFontSize s v).contentFontSize = 62 ∧
      (handleNumberFontSize s v).numberFontSize = 41 ∧
      (handleNumberContentSpacing s v).numberContentSpacing = 55 ∧
      (handleLineSpacing s v).lineSpacing = 70) ∧
    (∀ (s : RenderSettings) (v : List Char) (n : Int),
      parseIntJS v = some n → n ≠ 0 →
      (handleContentFontSize s v).contentFontSize = n ∧
      (handleNumberFontSize s v).numberFontSize = n ∧
      (handleNumberContentSpacing s v).numberContentSpacing = n ∧
      (handleLineSpacing s v).lineSpacing = n) ∧
    (∀ (s : RenderSettings) (v : List Char),
      (handleContentFontSize s v).contentFontSize ≠ 0 ∧
      (handleNumberFontSize s v).numberFontSize ≠ 0 ∧
      (handleNumberContentSpacing s v).numberContentSpacing ≠ 0 ∧
      (handleLineSpacing s v).lineSpacing ≠ 0) ∧
    (handleContentFontSize defaultSettings
      (("0").data)).contentFontSize = 62 ∧
    (handleContentFontSize defaultSettings
      (("-5").data)).contentFontSize = -5 := by
  refine ⟨?_, ?_, ?_, by decide, by decide⟩
  · intro s v h
    rcases h with h | h <;>
      simp [handleContentFontSize, handleNumberFontSize,
        handleNumberContentSpacing, handleLineSpacing, jsOr, h]
  · intro s v n h hn
    simp [handleContentFontSize, handleNumberFontSize,
      handleNumberContentSpacing, handleLineSpacing, jsOr, h, hn]
  · intro s v
    cases h : parseIntJS v with
    | none =>
      simp [handleContentFontSize, handleNumberFontSize,
        handleNumberContentSpacing, handleLineSpacing, jsOr, h]
    | some n =>
      by_cases hn : n = 0 <;>
        simp [handleContentFontSize, handleNumberFontSize,
          handleNumberContentSpacing, handleLineSpacing, jsOr, h, hn]

/-- Witness for C10 at the inputs 0 and -5. -/
theorem settings_zero_and_negative_witness :
    (handleLineSpacing defaultSettings (("0").data)).lineSpacing = 70 ∧
    (handleLineSpacing defaultSettings (("-5").data)).lineSpacing = -5 :=
  ⟨(settings_zero_and_negative.1 defaultSettings (("0").data)
      (Or.inr (by decide))).2.2.2,
    (settings_zero_and_negative.2.1 defaultSettings (("-5").data) (-5)
      (by decide) (by decide)).2.2.2⟩

end TxtPng
